import Mathlib

/-!
Shallow embedding of the voicebot ASR backend (`src/backend/api_server.py`)
and proofs about its keyword-detection and request-validation logic.

Python strings are modelled as lists of Unicode codepoints (`List Nat`).
The character-level operations (`str.lower`, the word-character class of the
regex `\b[\wäöüÄÖÜß]+\b`) are modelled over the character repertoire the
program is written for: ASCII plus the German letters ä ö ü Ä Ö Ü ß.
Codepoints outside that repertoire are treated as case-fixed non-word
characters.
-/

namespace Voicebot

/-- A Python string, as its list of Unicode codepoints. -/
abbrev Str := List Nat

/-- Embed a Lean string literal as a list of codepoints. -/
def str (s : String) : Str := s.data.map Char.toNat

/-- Python `str.lower` on a single codepoint, over the ASCII + German
repertoire: `A`–`Z` (65–90) shift by 32, `Ä` (196) ↦ `ä` (228),
`Ö` (214) ↦ `ö` (246), `Ü` (220) ↦ `ü` (252); everything else is fixed
(`ß` has no lowercase mapping distinct from itself). -/
def germanLower (c : Nat) : Nat :=
  if 65 ≤ c ∧ c ≤ 90 then c + 32
  else if c = 196 then 228
  else if c = 214 then 246
  else if c = 220 then 252
  else c

/-- Python `str.lower` on a whole string: codepoint-wise lowering. -/
def lowerStr (s : Str) : Str := s.map germanLower

/-- The character class `[\wäöüÄÖÜß]` of `word_pattern`
(`api_server.py` line 30): ASCII letters, digits, underscore (95), and the
German letters ä (228) ö (246) ü (252) Ä (196) Ö (214) Ü (220) ß (223). -/
def isWordChar (c : Nat) : Bool :=
  decide (97 ≤ c ∧ c ≤ 122) || decide (65 ≤ c ∧ c ≤ 90) ||
  decide (48 ≤ c ∧ c ≤ 57) || decide (c = 95) ||
  decide (c = 228) || decide (c = 246) || decide (c = 252) ||
  decide (c = 196) || decide (c = 214) || decide (c = 220) || decide (c = 223)

/-- Helper for `tokenize`: scans the input, accumulating the current run of
word characters in `acc`; a maximal nonempty run is emitted as one token.
This realises `word_pattern.findall`, whose matches are exactly the maximal
runs of word characters. -/
def tokenizeAux : Str → Str → List Str
  | [], acc => if acc = [] then [] else [acc]
  | c :: cs, acc =>
    if isWordChar c then tokenizeAux cs (acc ++ [c])
    else if acc = [] then tokenizeAux cs []
    else acc :: tokenizeAux cs []

/-- `word_pattern.findall text`: the list of maximal runs of word
characters of `text`, in order. -/
def tokenize (s : Str) : List Str := tokenizeAux s []

/-- The loop of `detect_keywords` (`api_server.py` lines 93–97):
`found` starts empty; each token that is in the keyword set and not yet in
`found` is appended. -/
def detectLoop (ks : List Str) : List Str → List Str → List Str
  | found, [] => found
  | found, t :: ts =>
    if t ∈ ks ∧ t ∉ found then detectLoop ks (found ++ [t]) ts
    else detectLoop ks found ts

/-- `detect_keywords(text)` (`api_server.py` lines 92–97), with the global
`keyword_set` passed explicitly. The Python `set` is represented by the
list of its members (only membership is used). The text is lowercased
first, then tokenized. -/
def detect_keywords (keyword_set : List Str) (text : Str) : List Str :=
  detectLoop keyword_set [] (tokenize (lowerStr text))

/-- Position of the first occurrence of `a` in `l` (`l.length` when
absent): the formal reading of "position of first occurrence". -/
def firstPos (a : Str) : List Str → Nat
  | [] => 0
  | x :: l => if x = a then 0 else firstPos a l + 1

/-- An `HTTPException(status_code, detail)` as raised by the handlers. -/
structure HTTPError where
  status_code : Nat
  detail : String
deriving DecidableEq

/-- A Python exception escaping an external call inside the `try` block of
`transcribe`: either a `RuntimeError` carrying a message (mapped to
`500, str(e)`) or any other exception (mapped to
`500, "Internal Server Error"`). -/
inductive PyErr where
  | runtimeError (msg : String)
  | otherError
deriving DecidableEq

/-- The `except RuntimeError` / `except Exception` arms of `transcribe`
(`api_server.py` lines 162–166). -/
def pyErrToHTTP : PyErr → HTTPError
  | .runtimeError msg => ⟨500, msg⟩
  | .otherError => ⟨500, "Internal Server Error"⟩

/-- Index of the last occurrence of codepoint `c` in `s`, if any. -/
def lastIndexOf (c : Nat) (s : Str) : Option Nat :=
  ((List.range s.length).filter (fun i => decide (s.getD i (c + 1) = c))).getLast?

/-- The extension component of `os.path.splitext(p)`: the suffix starting
at the last `.`, provided that dot lies after the last `/` (47) and some
character between them is not a dot (so a leading-dot name like `.bashrc`
has no extension); otherwise empty. -/
def splitext_ext (p : Str) : Str :=
  match lastIndexOf 46 p with
  | none => []
  | some d =>
    let base := match lastIndexOf 47 p with
      | none => 0
      | some s => s + 1
    if base ≤ d ∧ ((List.range d).drop base).any (fun i => decide (p.getD i 46 ≠ 46)) then
      p.drop d
    else []

/-- `ALLOWED_EXT = {".wav", ".mp3"}` (`api_server.py` line 20). -/
def ALLOWED_EXT : List Str := [str ".wav", str ".mp3"]

/-- Default of `MAX_FILE_SIZE_MB` (`api_server.py` line 19); the env
override is modelled by passing the limit as a parameter. -/
def MAX_FILE_SIZE_MB : Nat := 25

/-- `validate_file_meta` (`api_server.py` lines 99–102): lowercased
extension of the filename must be in `ALLOWED_EXT`, else
`HTTPException(400, "Unsupported file extension")`. -/
def validate_file_meta (filename : Str) : Except HTTPError Unit :=
  if lowerStr (splitext_ext filename) ∈ ALLOWED_EXT then Except.ok ()
  else Except.error ⟨400, "Unsupported file extension"⟩

/-- `ensure_size_limit` (`api_server.py` lines 104–106), with the
configured megabyte limit passed explicitly. -/
def ensure_size_limit (maxFileSizeMB : Nat) (size_bytes : Nat) : Except HTTPError Unit :=
  if size_bytes > maxFileSizeMB * 1024 * 1024 then Except.error ⟨413, "File too large"⟩
  else Except.ok ()

/-- Python whitespace stripped by `str.strip`. -/
def isPySpace (c : Nat) : Bool :=
  decide (c = 32) || decide (c = 9) || decide (c = 10) ||
  decide (c = 13) || decide (c = 11) || decide (c = 12)

/-- `str.strip()`: drop whitespace from both ends. -/
def pyStrip (s : Str) : Str :=
  ((s.dropWhile isPySpace).reverse.dropWhile isPySpace).reverse

/-- The body of a successful `TranscribeResponse` (the `timings` field is
wall-clock measurement and is not modelled). -/
structure TranscribeResponse where
  text : Str
  keywords : List Str
deriving DecidableEq

/-- The `/transcribe` handler (`api_server.py` lines 116–166), with the
external capabilities passed as parameters: `decodeAudio` models
`AudioSegment.from_file` + `export` on the uploaded bytes, and `runAsr`
models `get_asr_pipeline()` + running the pipeline, returning the raw
transcript text (`result.get("text", "")`). The handler order is that of
the source: empty-filename check, `validate_file_meta`, reading the body,
`ensure_size_limit` on its length, decode, ASR, `strip`, then
`detect_keywords` on the stripped text. -/
def transcribe (maxFileSizeMB : Nat) (keyword_set : List Str)
    (decodeAudio : Str → Except PyErr Unit)
    (runAsr : Unit → Except PyErr Str)
    (filename : Str) (contents : Str) : Except HTTPError TranscribeResponse :=
  if filename = [] then Except.error ⟨400, "Empty filename"⟩
  else match validate_file_meta filename with
  | Except.error e => Except.error e
  | Except.ok _ =>
    match ensure_size_limit maxFileSizeMB contents.length with
    | Except.error e => Except.error e
    | Except.ok _ =>
      match decodeAudio contents with
      | Except.error e => Except.error (pyErrToHTTP e)
      | Except.ok _ =>
        match runAsr () with
        | Except.error e => Except.error (pyErrToHTTP e)
        | Except.ok raw =>
          let text := pyStrip raw
          Except.ok ⟨text, detect_keywords keyword_set text⟩

/-- The keyword index built by `load_keywords` (`api_server.py` lines
45–55): the lowercase membership set (represented by the list of its
members) and the original-casing list. -/
structure KeywordIndex where
  keyword_set : List Str
  keywords_raw : List Str
deriving DecidableEq

/-- `load_keywords` (`api_server.py` lines 45–55). The argument is the
outcome of `open` + `json.load` + `.get("keywords", [])`: `Except.error`
models any exception raised while reading or parsing the keyword source
(the `except Exception` arm resets both globals to empty), `Except.ok ks`
the successfully extracted keyword list. -/
def load_keywords : Except String (List Str) → KeywordIndex
  | Except.error _ => ⟨[], []⟩
  | Except.ok ks => ⟨ks.map lowerStr, ks⟩

end Voicebot

namespace Voicebot

example : str "ab" = [97, 98] := by decide

example : tokenize (str "Das Auto ist rot, wirklich rot!") =
    [str "Das", str "Auto", str "ist", str "rot", str "wirklich", str "rot"] := by decide

example : detect_keywords [str "rot"] (str "Das Auto ist rot, wirklich rot!") = [str "rot"] := by
  decide

example : detect_keywords [str "england"] (str "England spielt heute.") = [str "england"] := by
  decide

example : detect_keywords [str "größe"] (str "Die Größe ist enorm") = [str "größe"] := by
  decide

example : splitext_ext (str "audio.txt") = str ".txt" := by decide

example : splitext_ext (str "audio") = [] := by decide

example : splitext_ext (str ".bashrc") = [] := by decide

example : splitext_ext (str "a.b/c") = [] := by decide

example : validate_file_meta (str "A.WAV") = Except.ok () := rfl

example : validate_file_meta (str "audio.txt") =
    Except.error ⟨400, "Unsupported file extension"⟩ := rfl

example :
    transcribe 25 [str "rot"] (fun _ => Except.ok ()) (fun _ => Except.ok (str " Rot! "))
      (str "a.wav") (str "xyz") =
    Except.ok ⟨str "Rot!", [str "rot"]⟩ := rfl

example :
    transcribe 0 [] (fun _ => Except.ok ()) (fun _ => Except.ok [])
      (str "a.wav") (str "x") =
    Except.error ⟨413, "File too large"⟩ := rfl

/-- Lowering a codepoint is idempotent. -/
theorem germanLower_idem (c : Nat) : germanLower (germanLower c) = germanLower c := by
  unfold germanLower
  split_ifs <;> omega

/-- Lowering a whole string is idempotent. -/
theorem lowerStr_idem (s : Str) : lowerStr (lowerStr s) = lowerStr s := by
  induction s with
  | nil => rfl
  | cons c cs ih =>
    simp only [lowerStr, List.map_cons] at ih ⊢
    exact congrArg₂ List.cons (germanLower_idem c) ih

/-- Lowering preserves the word-character class. -/
theorem isWordChar_germanLower (c : Nat) : isWordChar (germanLower c) = isWordChar c := by
  unfold germanLower
  split_ifs with h1 h2 h3 h4
  · have ha : isWordChar (c + 32) = true := by
      unfold isWordChar
      simp only [Bool.or_eq_true, decide_eq_true_eq]
      omega
    have hb : isWordChar c = true := by
      unfold isWordChar
      simp only [Bool.or_eq_true, decide_eq_true_eq]
      omega
    rw [ha, hb]
  · subst h2; decide
  · subst h3; decide
  · subst h4; decide
  · rfl

/-- Tokenizing a lowered string gives the lowered tokens of the original
string: lowering commutes with tokenization because it preserves the
word-character class. -/
theorem tokenizeAux_lower (s : Str) :
    ∀ acc : Str, tokenizeAux (lowerStr s) (lowerStr acc) = (tokenizeAux s acc).map lowerStr := by
  induction s with
  | nil =>
    intro acc
    show tokenizeAux [] (lowerStr acc) = (tokenizeAux [] acc).map lowerStr
    unfold tokenizeAux
    by_cases h : acc = []
    · subst h; rfl
    · rw [if_neg h, if_neg (by simpa [lowerStr, List.map_eq_nil_iff] using h)]
      rfl
  | cons c cs ih =>
    intro acc
    show tokenizeAux (germanLower c :: lowerStr cs) (lowerStr acc) =
      (tokenizeAux (c :: cs) acc).map lowerStr
    unfold tokenizeAux
    rw [isWordChar_germanLower]
    by_cases hw : isWordChar c = true
    · rw [if_pos hw, if_pos hw]
      have : lowerStr acc ++ [germanLower c] = lowerStr (acc ++ [c]) := by
        simp [lowerStr]
      rw [this, ih (acc ++ [c])]
    · rw [if_neg hw, if_neg hw]
      by_cases h : acc = []
      · subst h
        rw [show (lowerStr [] : Str) = [] from rfl, if_pos rfl, if_pos rfl]
        have h0 := ih []
        rw [show (lowerStr [] : Str) = [] from rfl] at h0
        exact h0
      · rw [if_neg h, if_neg (by simpa [lowerStr, List.map_eq_nil_iff] using h)]
        rw [List.map_cons]
        have h0 := ih []
        rw [show (lowerStr [] : Str) = [] from rfl] at h0
        exact congrArg (lowerStr acc :: ·) h0

/-- `tokenize (lowerStr s)` is `tokenize s` with every token lowered. -/
theorem tokenize_lowerStr (s : Str) :
    tokenize (lowerStr s) = (tokenize s).map lowerStr :=
  tokenizeAux_lower s []

/-- Every token of a lowered text is fixed by lowering. -/
theorem token_of_lower_fixed {s t : Str} (h : t ∈ tokenize (lowerStr s)) :
    lowerStr t = t := by
  rw [tokenize_lowerStr] at h
  obtain ⟨t₀, _, rfl⟩ := List.mem_map.mp h
  exact lowerStr_idem t₀

/-- Membership in the result of `detectLoop`. -/
theorem mem_detectLoop (ks : List Str) (k : Str) :
    ∀ (ts found : List Str),
      (k ∈ detectLoop ks found ts ↔ k ∈ found ∨ (k ∈ ts ∧ k ∈ ks)) := by
  intro ts
  induction ts with
  | nil => intro found; simp [detectLoop]
  | cons t ts ih =>
    intro found
    unfold detectLoop
    by_cases hc : t ∈ ks ∧ t ∉ found
    · rw [if_pos hc, ih]
      simp only [List.mem_append, List.mem_cons, List.not_mem_nil, or_false]
      constructor
      · rintro ((hf | rfl) | ⟨hts, hks⟩)
        · exact Or.inl hf
        · exact Or.inr ⟨Or.inl rfl, hc.1⟩
        · exact Or.inr ⟨Or.inr hts, hks⟩
      · rintro (hf | ⟨rfl | hts, hks⟩)
        · exact Or.inl (Or.inl hf)
        · exact Or.inl (Or.inr rfl)
        · exact Or.inr ⟨hts, hks⟩
    · rw [if_neg hc, ih]
      simp only [not_and, not_not] at hc
      simp only [List.mem_cons]
      constructor
      · rintro (hf | ⟨hts, hks⟩)
        · exact Or.inl hf
        · exact Or.inr ⟨Or.inr hts, hks⟩
      · rintro (hf | ⟨rfl | hts, hks⟩)
        · exact Or.inl hf
        · exact Or.inl (hc hks)
        · exact Or.inr ⟨hts, hks⟩

/-- Membership in the result of `detect_keywords`: exactly the tokens of
the lowered text that are in the keyword set. -/
theorem mem_detect_keywords {ks : List Str} {text : Str} {k : Str} :
    k ∈ detect_keywords ks text ↔ k ∈ tokenize (lowerStr text) ∧ k ∈ ks := by
  unfold detect_keywords
  rw [mem_detectLoop]
  simp

/-- `detectLoop` preserves freedom from duplicates. -/
theorem detectLoop_nodup (ks : List Str) :
    ∀ (ts found : List Str), found.Nodup → (detectLoop ks found ts).Nodup := by
  intro ts
  induction ts with
  | nil => intro found h; exact h
  | cons t ts ih =>
    intro found h
    unfold detectLoop
    by_cases hc : t ∈ ks ∧ t ∉ found
    · rw [if_pos hc]
      apply ih
      rw [List.nodup_append]
      refine ⟨h, List.nodup_singleton t, ?_⟩
      intro a ha hb
      rw [List.mem_singleton] at hb
      subst hb
      exact hc.2 ha
    · rw [if_neg hc]
      exact ih found h

/-- `detectLoop` keeps `found` unchanged when no element of `ts` is in the
keyword set. -/
theorem detectLoop_no_match (ks : List Str) :
    ∀ (ts found : List Str), (∀ t ∈ ts, t ∉ ks) → detectLoop ks found ts = found := by
  intro ts
  induction ts with
  | nil => intro found _; rfl
  | cons t ts ih =>
    intro found h
    unfold detectLoop
    rw [if_neg (fun hc => h t (List.mem_cons_self t ts) hc.1)]
    exact ih found (fun x hx => h x (List.mem_cons_of_mem t hx))

/-- `detectLoop` depends on the keyword set only through membership. -/
theorem detectLoop_congr (ks₁ ks₂ : List Str) (hks : ∀ x, x ∈ ks₁ ↔ x ∈ ks₂) :
    ∀ (ts found : List Str), detectLoop ks₁ found ts = detectLoop ks₂ found ts := by
  intro ts
  induction ts with
  | nil => intro found; rfl
  | cons t ts ih =>
    intro found
    unfold detectLoop
    by_cases h : t ∈ ks₂ ∧ t ∉ found
    · rw [if_pos h, if_pos ⟨(hks t).mpr h.1, h.2⟩, ih]
    · rw [if_neg h, if_neg (fun hh => h ⟨(hks t).mp hh.1, hh.2⟩), ih]

/-- A member of `pre` has its first occurrence inside `pre`. -/
theorem firstPos_append_lt (a : Str) (post : List Str) :
    ∀ pre : List Str, a ∈ pre → firstPos a (pre ++ post) < pre.length := by
  intro pre
  induction pre with
  | nil => intro h; cases h
  | cons x pre ih =>
    intro h
    show firstPos a (x :: (pre ++ post)) < (x :: pre).length
    unfold firstPos
    rw [List.length_cons]
    by_cases hx : x = a
    · rw [if_pos hx]; omega
    · rw [if_neg hx]
      have ha : a ∈ pre := by
        rcases List.mem_cons.mp h with h1 | h1
        · exact absurd h1.symm hx
        · exact h1
      have := ih ha
      omega

/-- A non-member of `pre` has its first occurrence at or after `pre`. -/
theorem firstPos_append_ge (a : Str) (post : List Str) :
    ∀ pre : List Str, a ∉ pre → pre.length ≤ firstPos a (pre ++ post) := by
  intro pre
  induction pre with
  | nil => intro _; exact Nat.zero_le _
  | cons x pre ih =>
    intro h
    show (x :: pre).length ≤ firstPos a (x :: (pre ++ post))
    unfold firstPos
    rw [List.length_cons]
    have hx : ¬x = a := fun hxa => h (hxa ▸ List.mem_cons_self x pre)
    rw [if_neg hx]
    have ha : a ∉ pre := fun hp => h (List.mem_cons_of_mem x hp)
    have := ih ha
    omega

/-- Invariant proof that `detectLoop` emits keywords in order of first
occurrence in the full token list `toks`: `pre` is the part already
scanned, `post` the rest, and `found` holds exactly the keyword-set
members of `pre`, ordered by first occurrence. -/
theorem detectLoop_pairwise (ks toks : List Str) :
    ∀ (post pre found : List Str), toks = pre ++ post →
      (∀ x, x ∈ found ↔ x ∈ pre ∧ x ∈ ks) →
      found.Pairwise (fun a b => firstPos a toks < firstPos b toks) →
      (detectLoop ks found post).Pairwise (fun a b => firstPos a toks < firstPos b toks) := by
  intro post
  induction post with
  | nil => intro pre found _ _ hp; exact hp
  | cons t ts ih =>
    intro pre found heq hinv hp
    unfold detectLoop
    by_cases hc : t ∈ ks ∧ t ∉ found
    · rw [if_pos hc]
      apply ih (pre ++ [t])
      · rw [heq, List.append_assoc]; rfl
      · intro x
        rw [List.mem_append, List.mem_append, List.mem_singleton]
        constructor
        · rintro (hx | rfl)
          · have := (hinv x).mp hx
            exact ⟨Or.inl this.1, this.2⟩
          · exact ⟨Or.inr rfl, hc.1⟩
        · rintro ⟨hx | rfl, hks⟩
          · exact Or.inl ((hinv x).mpr ⟨hx, hks⟩)
          · exact Or.inr rfl
      · rw [List.pairwise_append]
        refine ⟨hp, List.pairwise_singleton _ _, ?_⟩
        intro a ha b hb
        rw [List.mem_singleton] at hb
        subst hb
        have hapre : a ∈ pre := ((hinv a).mp ha).1
        have hbpre : b ∉ pre := fun hbp => hc.2 ((hinv b).mpr ⟨hbp, hc.1⟩)
        have h1 := firstPos_append_lt a (b :: ts) pre hapre
        have h2 := firstPos_append_ge b (b :: ts) pre hbpre
        rw [← heq] at h1 h2
        omega
    · rw [if_neg hc]
      simp only [not_and, not_not] at hc
      apply ih (pre ++ [t]) found
      · rw [heq, List.append_assoc]; rfl
      · intro x
        constructor
        · intro hx
          have := (hinv x).mp hx
          exact ⟨List.mem_append.mpr (Or.inl this.1), this.2⟩
        · rintro ⟨hx, hks⟩
          rcases List.mem_append.mp hx with h1 | h1
          · exact (hinv x).mpr ⟨h1, hks⟩
          · rw [List.mem_singleton] at h1
            subst h1
            exact hc hks
      · exact hp

/-- C1 counterexample: for index `{england}` and text
`"England spielt heute."`, `detect_keywords` returns `["england"]`, not
`["England"]` — the casing the keyword first appeared in the text is NOT
preserved, because the whole text is lowercased before tokenization. -/
theorem claim_C1_counterexample :
    detect_keywords [str "england"] (str "England spielt heute.") = [str "england"] ∧
    detect_keywords [str "england"] (str "England spielt heute.") ≠ [str "England"] := by
  exact ⟨by decide, by decide⟩

/-- C1 (amended): each keyword emitted by `detect_keywords` is emitted in
lowercase — the output element is its own lowercase form, so the casing of
the first appearance in the text survives only when it was already
lowercase; for index `{england}` and text `"England spielt heute."` the
output is `["england"]`. -/
theorem claim_C1_lowercase_emission :
    (∀ (ks : List Str) (text k : Str), k ∈ detect_keywords ks text → lowerStr k = k) ∧
    detect_keywords [str "england"] (str "England spielt heute.") = [str "england"] := by
  constructor
  · intro ks text k hk
    exact token_of_lower_fixed (mem_detect_keywords.mp hk).1
  · decide

/-- Witness for C1 (amended) at a concrete input. -/
theorem claim_C1_witness :
    str "rot" ∈ detect_keywords [str "rot"] (str "Rot ist rot") ∧
    lowerStr (str "rot") = str "rot" :=
  ⟨by decide,
   claim_C1_lowercase_emission.1 [str "rot"] (str "Rot ist rot") (str "rot") (by decide)⟩

/-- C2: every string returned by `detect_keywords` equals its own
lowercase form and is a member of the (lowercase) keyword set. -/
theorem claim_C2_lowercase_members :
    ∀ (ks : List Str) (text k : Str), k ∈ detect_keywords ks text →
      lowerStr k = k ∧ k ∈ ks := by
  intro ks text k hk
  have h := mem_detect_keywords.mp hk
  exact ⟨token_of_lower_fixed h.1, h.2⟩

/-- Witness for C2 at a concrete input. -/
theorem claim_C2_witness :
    str "blau" ∈ detect_keywords [str "blau"] (str "Der Ball ist BLAU!") ∧
    (lowerStr (str "blau") = str "blau" ∧ str "blau" ∈ [str "blau"]) :=
  ⟨by decide,
   claim_C2_lowercase_members [str "blau"] (str "Der Ball ist BLAU!") (str "blau") (by decide)⟩

/-- C3: a token of the text appears (up to lowercase identity) in the
`detect_keywords` output iff its lowercase form is in the keyword index;
the output never contains duplicates; and for index `{rot}` and text
`"Das Auto ist rot, wirklich rot!"` the output is `["rot"]`. -/
theorem claim_C3_membership_iff :
    (∀ (ks : List Str) (text t : Str), t ∈ tokenize text →
      (lowerStr t ∈ detect_keywords ks text ↔ lowerStr t ∈ ks)) ∧
    (∀ (ks : List Str) (text : Str), (detect_keywords ks text).Nodup) ∧
    detect_keywords [str "rot"] (str "Das Auto ist rot, wirklich rot!") = [str "rot"] := by
  refine ⟨?_, ?_, by decide⟩
  · intro ks text t ht
    rw [mem_detect_keywords]
    have hmem : lowerStr t ∈ tokenize (lowerStr text) := by
      rw [tokenize_lowerStr]
      exact List.mem_map_of_mem lowerStr ht
    exact ⟨fun h => h.2, fun h => ⟨hmem, h⟩⟩
  · intro ks text
    exact detectLoop_nodup ks _ [] List.nodup_nil

/-- Witness for C3 at a concrete input. -/
theorem claim_C3_witness :
    str "rot" ∈ tokenize (str "Das Auto ist rot, wirklich rot!") ∧
    (lowerStr (str "rot") ∈
        detect_keywords [str "rot"] (str "Das Auto ist rot, wirklich rot!") ↔
      lowerStr (str "rot") ∈ [str "rot"]) :=
  ⟨by decide,
   claim_C3_membership_iff.1 [str "rot"] (str "Das Auto ist rot, wirklich rot!")
     (str "rot") (by decide)⟩

/-- C4: the `detect_keywords` output is strictly ordered by the position
of each keyword's first occurrence in the token stream of the text, not by
index iteration order — for index `{rot, blau}` (in either representation
order) and text `"Der Ball ist rot und blau."` the output is
`["rot", "blau"]`. -/
theorem claim_C4_first_occurrence_order :
    (∀ (ks : List Str) (text : Str),
      (detect_keywords ks text).Pairwise
        (fun a b => firstPos a (tokenize (lowerStr text)) <
          firstPos b (tokenize (lowerStr text)))) ∧
    detect_keywords [str "rot", str "blau"] (str "Der Ball ist rot und blau.") =
      [str "rot", str "blau"] ∧
    detect_keywords [str "blau", str "rot"] (str "Der Ball ist rot und blau.") =
      [str "rot", str "blau"] := by
  refine ⟨?_, by decide, by decide⟩
  intro ks text
  exact detectLoop_pairwise ks (tokenize (lowerStr text)) (tokenize (lowerStr text)) [] []
    rfl (fun x => by simp) List.Pairwise.nil

/-- C5: the German letters ä ö ü Ä Ö Ü ß are word characters for the
tokenizer, so `"Die Größe ist enorm"` tokenizes with `Größe` as a single
unbroken token, and against index `{größe}` detection returns exactly one
element whose lowercase form is `größe`. -/
theorem claim_C5_umlaut_matching :
    (isWordChar 228 = true ∧ isWordChar 246 = true ∧ isWordChar 252 = true ∧
      isWordChar 196 = true ∧ isWordChar 214 = true ∧ isWordChar 220 = true ∧
      isWordChar 223 = true) ∧
    tokenize (str "Die Größe ist enorm") =
      [str "Die", str "Größe", str "ist", str "enorm"] ∧
    (detect_keywords [str "größe"] (str "Die Größe ist enorm")).countP
      (fun k => decide (lowerStr k = str "größe")) = 1 ∧
    detect_keywords [str "größe"] (str "Die Größe ist enorm") = [str "größe"] := by
  exact ⟨by decide, by decide, by decide, by decide⟩

/-- C6: detection on the empty string returns `[]`; detection on a text
none of whose tokens lowercases into the index returns `[]`; detection
with an empty index returns `[]` for every text. In all three cases the
result is a normal empty list. -/
theorem claim_C6_empty_results :
    (∀ ks : List Str, detect_keywords ks (str "") = []) ∧
    (∀ (ks : List Str) (text : Str),
      (∀ t ∈ tokenize text, lowerStr t ∉ ks) → detect_keywords ks text = []) ∧
    (∀ text : Str, detect_keywords [] text = []) := by
  refine ⟨fun ks => rfl, ?_, ?_⟩
  · intro ks text h
    unfold detect_keywords
    apply detectLoop_no_match
    intro t ht
    rw [tokenize_lowerStr] at ht
    obtain ⟨t₀, ht₀, rfl⟩ := List.mem_map.mp ht
    exact h t₀ ht₀
  · intro text
    unfold detect_keywords
    apply detectLoop_no_match
    intro t _
    exact List.not_mem_nil t

/-- Witness for C6 at a concrete input. -/
theorem claim_C6_witness :
    (∀ t ∈ tokenize (str "blau!"), lowerStr t ∉ [str "rot"]) ∧
    detect_keywords [str "rot"] (str "blau!") = [] :=
  ⟨by decide, claim_C6_empty_results.2.1 [str "rot"] (str "blau!") (by decide)⟩

/-- C7: keyword detection is deterministic — two calls of
`detect_keywords` on the same text and index yield identical output, and
the output depends on the keyword set only through membership (so any two
representations of the same set, e.g. two iteration orders, give the same
output). -/
theorem claim_C7_deterministic :
    (∀ (ks : List Str) (text : Str), detect_keywords ks text = detect_keywords ks text) ∧
    (∀ (ks₁ ks₂ : List Str) (text : Str), (∀ x, x ∈ ks₁ ↔ x ∈ ks₂) →
      detect_keywords ks₁ text = detect_keywords ks₂ text) := by
  refine ⟨fun _ _ => rfl, ?_⟩
  intro ks₁ ks₂ text h
  unfold detect_keywords
  exact detectLoop_congr ks₁ ks₂ h _ []

/-- Witness for C7 at a concrete input. -/
theorem claim_C7_witness :
    detect_keywords [str "rot"] (str "rot") = detect_keywords [str "rot"] (str "rot") :=
  claim_C7_deterministic.2 [str "rot"] [str "rot"] (str "rot") (fun _ => Iff.rfl)

/-- C8 counterexample: an upload whose filename is empty has no extension,
yet `/transcribe` rejects it with reason `"Empty filename"`, not
`"Unsupported file extension"` (the empty-filename check precedes
`validate_file_meta`). -/
theorem claim_C8_counterexample :
    transcribe 25 [] (fun _ => Except.ok ()) (fun _ => Except.ok [])
      (str "") (str "somebytes") = Except.error ⟨400, "Empty filename"⟩ ∧
    (⟨400, "Empty filename"⟩ : HTTPError) ≠ ⟨400, "Unsupported file extension"⟩ := by
  exact ⟨rfl, by decide⟩

/-- C8 (amended): for every upload with a NONEMPTY filename whose
lowercased extension is not in `{.wav, .mp3}` (in particular when it has
no extension), `/transcribe` fails with status 400 and reason
`"Unsupported file extension"`, for every body and regardless of the
decode and ASR capabilities — i.e. before any byte of the upload is
examined. -/
theorem claim_C8_bad_extension :
    ∀ (maxFileSizeMB : Nat) (ks : List Str) (decodeAudio : Str → Except PyErr Unit)
      (runAsr : Unit → Except PyErr Str) (filename contents : Str),
      filename ≠ [] → lowerStr (splitext_ext filename) ∉ ALLOWED_EXT →
      transcribe maxFileSizeMB ks decodeAudio runAsr filename contents =
        Except.error ⟨400, "Unsupported file extension"⟩ := by
  intro maxMB ks dec asr filename contents hne hext
  unfold transcribe
  rw [if_neg hne]
  unfold validate_file_meta
  rw [if_neg hext]

/-- Witness for C8 (amended): `audio.txt` yields 400. -/
theorem claim_C8_witness :
    str "audio.txt" ≠ [] ∧
    lowerStr (splitext_ext (str "audio.txt")) ∉ ALLOWED_EXT ∧
    transcribe 25 [str "rot"] (fun _ => Except.ok ()) (fun _ => Except.ok [])
      (str "audio.txt") (str "bytes") =
      Except.error ⟨400, "Unsupported file extension"⟩ :=
  ⟨by decide, by decide,
   claim_C8_bad_extension 25 [str "rot"] (fun _ => Except.ok ()) (fun _ => Except.ok [])
     (str "audio.txt") (str "bytes") (by decide) (by decide)⟩

/-- C9 counterexample: an upload exceeding the size ceiling whose filename
has a bad extension is rejected with 400 `"Unsupported file extension"`,
not 413 — the extension check runs before the size check, so "for every
upload whose size exceeds the ceiling" the status is not always 413. -/
theorem claim_C9_counterexample :
    (str "x").length > 0 * 1024 * 1024 ∧
    transcribe 0 [] (fun _ => Except.ok ()) (fun _ => Except.ok [])
      (str "audio.txt") (str "x") = Except.error ⟨400, "Unsupported file extension"⟩ ∧
    (⟨400, "Unsupported file extension"⟩ : HTTPError) ≠ ⟨413, "File too large"⟩ := by
  exact ⟨by decide, rfl, by decide⟩

/-- C9 (amended): for every upload with a nonempty filename and an allowed
extension, a body longer than the configured megabyte limit × 1024 × 1024
makes `/transcribe` fail with status 413 and reason `"File too large"`,
regardless of the decode and ASR capabilities (so before decoding or
transcription is attempted); and a body not exceeding that ceiling passes
`ensure_size_limit`. -/
theorem claim_C9_size_limit :
    ∀ (maxFileSizeMB : Nat) (ks : List Str) (decodeAudio : Str → Except PyErr Unit)
      (runAsr : Unit → Except PyErr Str) (filename contents : Str),
      filename ≠ [] → lowerStr (splitext_ext filename) ∈ ALLOWED_EXT →
      (contents.length > maxFileSizeMB * 1024 * 1024 →
        transcribe maxFileSizeMB ks decodeAudio runAsr filename contents =
          Except.error ⟨413, "File too large"⟩) ∧
      (contents.length ≤ maxFileSizeMB * 1024 * 1024 →
        ensure_size_limit maxFileSizeMB contents.length = Except.ok ()) := by
  intro maxMB ks dec asr filename contents hne hext
  constructor
  · intro hsize
    unfold transcribe
    rw [if_neg hne]
    unfold validate_file_meta
    rw [if_pos hext]
    unfold ensure_size_limit
    rw [if_pos hsize]
  · intro hsize
    unfold ensure_size_limit
    rw [if_neg (by omega)]

/-- Witness for C9 (amended) at concrete inputs: with limit 0 a 3-byte
body is rejected 413; with the default limit 25 the same body passes the
size check. -/
theorem claim_C9_witness :
    (str "sound.wav" ≠ [] ∧ lowerStr (splitext_ext (str "sound.wav")) ∈ ALLOWED_EXT ∧
      (str "abc").length > 0 * 1024 * 1024 ∧
      transcribe 0 [] (fun _ => Except.ok ()) (fun _ => Except.ok [])
        (str "sound.wav") (str "abc") = Except.error ⟨413, "File too large"⟩) ∧
    ((str "abc").length ≤ 25 * 1024 * 1024 ∧
      ensure_size_limit 25 (str "abc").length = Except.ok ()) :=
  ⟨⟨by decide, by decide, by decide,
    (claim_C9_size_limit 0 [] (fun _ => Except.ok ()) (fun _ => Except.ok [])
      (str "sound.wav") (str "abc") (by decide) (by decide)).1 (by decide)⟩,
   ⟨by decide,
    (claim_C9_size_limit 25 [] (fun _ => Except.ok ()) (fun _ => Except.ok [])
      (str "sound.wav") (str "abc") (by decide) (by decide)).2 (by decide)⟩⟩

/-- C10: any failure while reading or parsing the keyword source produces
an empty index — empty lowercase set and empty original-casing list — so
keyword loading returns normally instead of raising. -/
theorem claim_C10_load_failure_empty :
    ∀ e : String,
      (load_keywords (Except.error e)).keyword_set = [] ∧
      (load_keywords (Except.error e)).keywords_raw = [] :=
  fun _ => ⟨rfl, rfl⟩

end Voicebot
